/-
Verification of the unconvert redundant-conversion remover.

This file gives a shallow embedding, in Lean 4, of the core of the
unconvert program (package main of mdempsky/unconvert): the edit data
model (`Edit`, `intersect`, `mergeEdits`), the edit applier (`apply`
with its sort / overlap validation / splice phases, in both the
reverse-order in-place variant and the forward-copy variant), the
parenthesization oracle (`keepParen` over a model of go/printer), the
untyped-value classifier (`isUntypedValue`), and the conversion
detector (`visitor.unconvert`).  Theorems at the end settle the
specification claims against these definitions.

Conventions of the embedding:
  * Go slices of bytes become `List`s; byte offsets become `Nat`.
  * Go maps keyed by file name become association lists
    (`List (String × List Edit)`); Go map iteration, which the source
    only uses to fold commutative-looking updates, becomes a left fold
    in list order.
  * The go/types type table (`pkg.Types`, keyed by node identity)
    becomes a function `Expr → Option TypeAndValue`; the `info.Uses`
    object-resolution table becomes a per-identifier annotation
    (`Option GoObj`) carried on the `Expr.ident` node itself.
  * `log.Fatal` paths become explicit result constructors
    (`ApplyResult.fatal`, or `none` for `keepParen`'s failed field
    search).
-/
import Mathlib

namespace UnconvertProof

/-! ## Edits and the cross-configuration merge (unconvert.go) -/

/-- Go's `type Edit struct { Pos, End int }`: a half-open byte range
`[Pos, End)` to delete from a file. -/
structure Edit where
  Pos : Nat
  End : Nat
deriving DecidableEq, Repr

/-- Source `func intersect(e1, e2 []Edit) []Edit` from unconvert.go: if either
list is empty the result is `nil`; otherwise the elements of `e2`
(in order) that occur in `e1` (membership via a set keyed by the whole
`Edit` value). -/
def intersect (e1 e2 : List Edit) : List Edit :=
  if e1.isEmpty || e2.isEmpty then []
  else e2.filter (fun e => e1.contains e)

/-- A per-configuration (or merged) edit set: file name ↦ edit list.
Models Go's `map[string][]Edit` as an association list. -/
abbrev FileEdits := List (String × List Edit)

/-- Lookup of a file's entry in a `FileEdits` map (`m[f]` with its
`ok` bit as `Option`). -/
def lookupFile : FileEdits → String → Option (List Edit)
  | [], _ => none
  | (g, e) :: rest, f => if g = f then some e else lookupFile rest f

/-- In-place update `m[f] = e` of an existing key (no-op on keys not
present; `mergeEdits` only calls it on present keys). -/
def updateFile : FileEdits → String → List Edit → FileEdits
  | [], _, _ => []
  | (g, e0) :: rest, f, e =>
    if g = f then (g, e) :: rest else (g, e0) :: updateFile rest f e

/-- One step of the merge loop body of `mergeEdits`:
for a single `f, e` pair of one configuration's result,
`if e0, ok := m[f]; ok { m[f] = intersect(e0, e) } else { m[f] = e }`. -/
def mergeStep1 (m : FileEdits) (p : String × List Edit) : FileEdits :=
  match lookupFile m p.1 with
  | some e0 => updateFile m p.1 (intersect e0 p.2)
  | none => m ++ [p]

/-- Folding one whole configuration's edit map into the accumulator
(the inner `for f, e := range <configuration result>` loop). -/
def mergeStep (m : FileEdits) (cfg : FileEdits) : FileEdits :=
  cfg.foldl mergeStep1 m

/-- Source `func mergeEdits() map[string][]Edit`: fold every configuration's
per-file edit set into one map, intersecting the entries of files seen
more than once.  The enumeration of configurations becomes the input
list `cfgs` (one `FileEdits` per GOOS/GOARCH pair). -/
def mergeEditsModel (cfgs : List FileEdits) : FileEdits :=
  cfgs.foldl mergeStep []

/-! ## The edit applier (unconvert.go `apply`) -/

/-- The order used by `sort.Sort(editsByPos(edits))`:
`Less(i, j) = e[i].Pos < e[j].Pos`, i.e. sorting into nondecreasing
start offsets. -/
def editLE (a b : Edit) : Prop := a.Pos ≤ b.Pos

instance : DecidableRel editLE := fun a b => Nat.decLe a.Pos b.Pos

instance : IsTotal Edit editLE := ⟨fun a b => Nat.le_total a.Pos b.Pos⟩

instance : IsTrans Edit editLE := ⟨fun _ _ _ h1 h2 => Nat.le_trans h1 h2⟩

/-- The sorting phase of `apply`.  `sort.Sort` produces some
permutation ordered by `Less`; we fix insertion sort as the
deterministic model. -/
def sortEdits (l : List Edit) : List Edit := l.insertionSort editLE

/-- The overlap validation loop of `apply`:
`for i := 1; i < len(edits); i++ { if edits[i-1].End > edits[i].Pos { log.Fatal("overlap") } }`.
Returns `true` when `log.Fatal("overlap")` would fire. -/
def overlapFatal : List Edit → Bool
  | a :: b :: rest => decide (a.End > b.Pos) || overlapFatal (b :: rest)
  | _ => false

/-- One deletion `copy(buf[e.Pos:], buf[e.End:]); buf = buf[:len(buf)-(e.End-e.Pos)]`:
splice the half-open range `[Pos, End)` out of the buffer. -/
def deleteRange (buf : List α) (e : Edit) : List α :=
  buf.take e.Pos ++ buf.drop e.End

/-- The reverse-order in-place splicing loop of unconvert.go's `apply`:
`for i := len(edits)-1; i >= 0; i--` applying `deleteRange` from the
last (highest-offset) edit down to the first.  `foldr` performs the
deletions in exactly that order. -/
def spliceRev (buf : List α) (edits : List Edit) : List α :=
  edits.foldr (fun e b => deleteRange b e) buf

/-- The tail of the forward-copy strategy (the historical variant of
`apply`): after the kept prefix, copy the byte range between each pair
of consecutive edits (`buf[edits[i-1].End:edits[i].Pos]`), and finally
the suffix after the last edit (`buf[edits[len-1].End:]`).
`prev` is the previous edit's `End`. -/
def forwardSegs (buf : List α) (prev : Nat) : List Edit → List α
  | [] => buf.drop prev
  | e :: es => (buf.drop prev).take (e.Pos - prev) ++ forwardSegs buf e.End es

/-- The forward-copy-into-new-buffer splicing strategy:
`n := edits[0].Pos` (kept prefix), then the segments between edits,
then the tail.  Reads always run ahead of writes, so the copies see
the original buffer; the pure model concatenates the kept segments. -/
def forwardCopy (buf : List α) : List Edit → List α
  | [] => buf
  | e :: es => buf.take e.Pos ++ forwardSegs buf e.End es

/-- Well-formed edit lists relative to a lower bound `lo` and buffer
length `len`: starts are nondecreasing from `lo`, each range is
half-open with `Pos ≤ End ≤ len`, and consecutive ranges do not
overlap (the next start is at or after the previous end; touching is
allowed). -/
def editsWf (lo len : Nat) : List Edit → Bool
  | [] => true
  | e :: es =>
    decide (lo ≤ e.Pos) && decide (e.Pos ≤ e.End) && decide (e.End ≤ len) &&
      editsWf e.End len es

/-- Shift an edit's offsets down by `k` (used to re-base edits after a
kept prefix has been split off). -/
def shiftE (k : Nat) (e : Edit) : Edit := ⟨e.Pos - k, e.End - k⟩

/-- Outcome of one `apply(file, edits)` call, as visible on the file
system: no touch at all, abort via `log.Fatal("overlap")`, or a write
of new contents. -/
inductive ApplyResult where
  | noop
  | fatal
  | write (contents : List Nat)
deriving DecidableEq, Repr

/-- Source `func apply(file string, edits []Edit)` of unconvert.go as a pure
function from the file's current bytes to the file-system outcome:
return immediately on an empty edit list; sort; `log.Fatal` on
overlap; otherwise splice all ranges out in reverse order, run the
canonical formatter `fmtF` (`format.Source`, kept abstract), and write
the result. -/
def applyModel (fmtF : List Nat → List Nat) (buf : List Nat) (edits : List Edit) :
    ApplyResult :=
  if edits.isEmpty then .noop
  else
    let s := sortEdits edits
    if overlapFatal s then .fatal
    else .write (fmtF (spliceRev buf s))

/-- The file's contents after an `ApplyResult` takes effect: only
`write` changes them. -/
def fileAfter (r : ApplyResult) (old : List Nat) : List Nat :=
  match r with
  | .write b => b
  | _ => old

/-- The process exit status of `func main()` (the report/apply driver):
the report path prints each file's diagnostics and returns normally
(status 0); the apply path exits with status 1 only if some `apply`
call hits `log.Fatal` on overlapping edits (I/O and front-end failures
are outside the model).  No path inspects whether any edit was found. -/
def mainExitModel (flagApplyMode : Bool) (m : FileEdits) : Nat :=
  if flagApplyMode then
    if m.any (fun fe => !fe.2.isEmpty && overlapFatal (sortEdits fe.2)) then 1 else 0
  else 0

/-! ## The syntax-tree model (go/ast as consumed by the detector) -/

/-- The go/token operators that matter to the core: the binary
operators of the language plus `!` (token.NOT, used only as a unary
operator). -/
inductive GoOp where
  | shl | shr
  | eql | neq | lss | gtr | leq | geq
  | add | sub | mul | quo | rem
  | and | or | xor | andNot | land | lor
  | not
deriving DecidableEq, Repr

/-- Shift operators (token.SHL, token.SHR). -/
def isShiftOp : GoOp → Bool
  | .shl | .shr => true
  | _ => false

/-- Comparison operators (token.EQL … token.GEQ). -/
def isCmpOp : GoOp → Bool
  | .eql | .neq | .lss | .gtr | .leq | .geq => true
  | _ => false

/-- Arithmetic/logical binary operators (token.ADD … token.LOR). -/
def isArithOp : GoOp → Bool
  | .add | .sub | .mul | .quo | .rem
  | .and | .or | .xor | .andNot | .land | .lor => true
  | _ => false

/-- Unary operators under which untypedness propagates
(token.ADD, token.SUB, token.NOT, token.XOR). -/
def isUnaryKeepOp : GoOp → Bool
  | .add | .sub | .not | .xor => true
  | _ => false

/-- Precedence `Op.Precedence()` from go/token (binary operator precedence). -/
def binPrec : GoOp → Nat
  | .lor => 1
  | .land => 2
  | .eql | .neq | .lss | .gtr | .leq | .geq => 3
  | .add | .sub | .or | .xor => 4
  | .mul | .quo | .rem | .shl | .shr | .and | .andNot => 5
  | .not => 0

/-- Source text of a binary operator. -/
def binText : GoOp → String
  | .shl => "<<"
  | .shr => ">>"
  | .eql => "=="
  | .neq => "!="
  | .lss => "<"
  | .gtr => ">"
  | .leq => "<="
  | .geq => ">="
  | .add => "+"
  | .sub => "-"
  | .mul => "*"
  | .quo => "/"
  | .rem => "%"
  | .and => "&"
  | .or => "|"
  | .xor => "^"
  | .andNot => "&^"
  | .land => "&&"
  | .lor => "||"
  | .not => "!"

/-- Source text of a unary operator. -/
def unText : GoOp → String
  | .add => "+"
  | .sub => "-"
  | .xor => "^"
  | _ => "!"

/-- What `isUntypedValue` needs of a resolved object
(`info.Uses[ident]`): whether `obj.Pkg() == nil`, `obj.Name()`,
whether `obj.Type()` is a `*types.Basic` with `IsUntyped` set, and
whether the object is a `*types.Builtin`. -/
structure GoObj where
  pkgIsNil : Bool
  name : String
  isUntypedBasic : Bool
  isBuiltin : Bool
deriving DecidableEq, Repr

/-- The expression forms of go/ast that the core inspects.
`ident` carries its `info.Uses` resolution inline (the Go table is
keyed by node identity); `call` carries the byte offset of its left
parenthesis (`call.Lparen`), which is how part_000 identifies an
unnecessary conversion. -/
inductive Expr where
  | ident (name : String) (use : Option GoObj)
  | lit (value : String)
  | binary (op : GoOp) (x y : Expr)
  | unary (op : GoOp) (x : Expr)
  | paren (x : Expr)
  | call (fn : Expr) (lparen : Nat) (args : List Expr) (ellipsis : Bool)
  | selector (x : Expr) (sel : Expr)

mutual

/-- Node comparison.  The Go source compares interface pointers
(`f == b`); in the embedding, where trees are values, this becomes
structural equality. -/
def beqExpr : Expr → Expr → Bool
  | .ident n u, .ident n' u' => n == n' && u == u'
  | .lit v, .lit v' => v == v'
  | .binary op x y, .binary op' x' y' => op == op' && beqExpr x x' && beqExpr y y'
  | .unary op x, .unary op' x' => op == op' && beqExpr x x'
  | .paren x, .paren x' => beqExpr x x'
  | .call f l as e, .call f' l' as' e' =>
    beqExpr f f' && l == l' && beqExprList as as' && e == e'
  | .selector x s, .selector x' s' => beqExpr x x' && beqExpr s s'
  | _, _ => false

/-- Elementwise comparison of expression lists. -/
def beqExprList : List Expr → List Expr → Bool
  | [], [] => true
  | a :: as, b :: bs => beqExpr a b && beqExprList as bs
  | _, _ => false

end

/-- Source `func asBuiltin(n ast.Expr, info *types.Info) (*types.Builtin, bool)`:
strip parentheses, require an identifier whose use resolves to a
builtin object. -/
def asBuiltin : Expr → Option GoObj
  | .paren x => asBuiltin x
  | .ident _ (some obj) => if obj.isBuiltin then some obj else none
  | _ => none

/-- The `*ast.Ident` case of `isUntypedValue`: the universal `nil`
(`obj.Pkg() == nil && obj.Name() == "nil"`) or a reference to an
untyped named constant; an identifier without a `Uses` entry falls
through to `false`. -/
def identUntyped (use : Option GoObj) : Bool :=
  match use with
  | some obj =>
    if obj.pkgIsNil && obj.name == "nil" then true
    else if obj.isUntypedBasic then true
    else false
  | none => false

/-- Source `func isUntypedValue(n ast.Expr, info *types.Info) bool` from
part_000: structural classification of an expression as yielding an
untyped value.  The `*ast.CallExpr` case dispatches on the builtin
name: `case "real", "imag"` looks at the first argument
(`n.Args[0]`), `case "complex"` at the first two; a builtin call that
type-checked always has those arguments, so the embedding maps
missing ones to `false`. -/
def isUntypedValue : Expr → Bool
  | .binary op x y =>
    if isShiftOp op then isUntypedValue x
    else if isCmpOp op then true
    else if isArithOp op then isUntypedValue x && isUntypedValue y
    else false
  | .unary op x => if isUnaryKeepOp op then isUntypedValue x else false
  | .lit _ => true
  | .paren x => isUntypedValue x
  | .selector _ sel => isUntypedValue sel
  | .ident _ use => identUntyped use
  | .call _ _ [] _ => false
  | .call fn _ [a] _ =>
    match asBuiltin fn with
    | some obj =>
      if obj.name = "real" || obj.name = "imag" then isUntypedValue a
      else false
    | none => false
  | .call fn _ (a :: b :: _) _ =>
    match asBuiltin fn with
    | some obj =>
      if obj.name = "real" || obj.name = "imag" then isUntypedValue a
      else if obj.name = "complex" then isUntypedValue a && isUntypedValue b
      else false
    | none => false

/-! ## The printer model and the parenthesization oracle -/

mutual

/-- A model of go/printer's expression printing
(`printer.Fprint` on an expression), parametrized by the minimum
precedence `prec1` expected by the context (as in go/printer's
`expr1(x, prec1, depth)`):

  * a binary expression of precedence `prec < prec1` is wrapped in
    parentheses by the printer itself;
  * a unary expression is wrapped when `token.UnaryPrec (= 6) < prec1`;
  * a `ParenExpr` directly around another `ParenExpr` is collapsed
    (go/printer does not print parentheses around an already
    parenthesized expression);
  * operands: left at `prec`, right at `prec + 1`; call callees and
    selector operands at `token.HighestPrec (= 7)`; inside explicit
    parentheses the context restarts at `token.LowestPrec (= 0)`.

Spacing is uniform (one space around binary operators), a
simplification of go/printer's depth-dependent spacing that leaves the
print-and-compare structure intact. -/
def render1 : Nat → Expr → String
  | _, .ident n _ => n
  | _, .lit v => v
  | prec1, .binary op x y =>
    let prec := binPrec op
    let s := render1 prec x ++ " " ++ binText op ++ " " ++ render1 (prec + 1) y
    if prec < prec1 then "(" ++ s ++ ")" else s
  | prec1, .unary op x =>
    let s := unText op ++ render1 6 x
    if 6 < prec1 then "(" ++ s ++ ")" else s
  | prec1, .paren (.paren y) => render1 prec1 (.paren y)
  | _, .paren x => "(" ++ render1 0 x ++ ")"
  | _, .call fn _ args ell =>
    render1 7 fn ++ "(" ++ renderArgs args ++ (if ell then "..." else "") ++ ")"
  | _, .selector x s => render1 7 x ++ "." ++ render1 7 s

/-- Comma-separated argument list of a call. -/
def renderArgs : List Expr → String
  | [] => ""
  | [a] => render1 0 a
  | a :: rest => render1 0 a ++ ", " ++ renderArgs rest

end

/-- Top-level printing (`expr0`: context precedence `token.LowestPrec`). -/
def render (e : Expr) : String := render1 0 e

/-- The `[]ast.Expr` part of `findExprField`: replace the first list
slot holding `b` with `c`. -/
def replaceFirstInList (b c : Expr) : List Expr → Option (List Expr)
  | [] => none
  | a :: rest =>
    if beqExpr a b then some (c :: rest)
    else
      match replaceFirstInList b c rest with
      | some r => some (a :: r)
      | none => none

/-- Source `func findExprField(a ast.Node, b ast.Expr) *ast.Expr` combined
with the assignment `*bp = c`: scan `a`'s expression-valued fields (in
field order, including slots of `[]ast.Expr` fields) for the child
`b`, and return `a` with that field replaced by `c`; `none` models the
`log.Fatal("Failed to find b in a")` path. -/
def replaceExprField (a b c : Expr) : Option Expr :=
  match a with
  | .ident _ _ => none
  | .lit _ => none
  | .binary op x y =>
    if beqExpr x b then some (.binary op c y)
    else if beqExpr y b then some (.binary op x c)
    else none
  | .unary op x => if beqExpr x b then some (.unary op c) else none
  | .paren x => if beqExpr x b then some (.paren c) else none
  | .call fn lp args ell =>
    if beqExpr fn b then some (.call c lp args ell)
    else
      match replaceFirstInList b c args with
      | some args2 => some (.call fn lp args2 ell)
      | none => none
  | .selector x s =>
    if beqExpr x b then some (.selector c s)
    else if beqExpr s b then some (.selector x c)
    else none

/-- Source `func keepParen(a ast.Node, b, c ast.Expr) bool`: print `a` with
`b` replaced by `c`, print `a` with `b` replaced by `(c)` (a fresh
`ast.ParenExpr`), restore, and report whether the two prints are the
same text (the source's comment: i.e., the parentheses are necessary).
`none` models the fatal "Failed to find b in a" path. -/
def keepParen (a b c : Expr) : Option Bool :=
  match replaceExprField a b c, replaceExprField a b (.paren c) with
  | some a1, some a2 => some (render a1 == render a2)
  | _, _ => none

/-! ## The conversion detector (part_000 `(*visitor).unconvert`) -/

/-- Resolved type descriptors, compared by `types.Identical` (exact
identity; the embedding realizes identity as structural equality of
the descriptor). -/
inductive GoType where
  | basic (name : String)
  | named (name : String)
  | other (id : Nat)
deriving DecidableEq, Repr

/-- The part of `types.TypeAndValue` the detector reads: `IsType()`,
`Type` (which is `nil` exactly for the zero `TypeAndValue` the code
keeps using after a failed argument lookup), and the constant
`Value`. -/
structure TypeAndValue where
  isType : Bool
  type : Option GoType
  value : Option String
deriving DecidableEq, Repr

/-- Model of `types.Identical(x, y)` including its behavior on `nil` types:
two `nil` types are identical (`x == y`), a `nil` and a non-`nil`
type are not. -/
def identical : Option GoType → Option GoType → Bool
  | some a, some b => a == b
  | none, none => true
  | _, _ => false

/-- The type table of one package under one configuration:
`v.pkg.Types`, keyed by node.  (`info.Uses` is carried on the
identifier nodes themselves.) -/
structure PkgInfo where
  types : Expr → Option TypeAndValue

/-- Source `func (v *visitor) unconvert(call *ast.CallExpr)` from part_000:
returns the emitted edit (the `Lparen` offset inserted into
`v.edits`), if any, together with the warnings printed
(`fmt.Println`).  Rules in source order: exactly one non-variadic
argument; the callee's type entry must exist (warn and skip
otherwise) and be a type; a missing argument entry warns but falls
through with the zero `TypeAndValue`; an untyped argument value is
skipped (workaround for golang.org/issue/13061); non-identical types
are a real conversion; otherwise emit. -/
def unconvert (pkg : PkgInfo) (call : Expr) : Option Nat × List String :=
  match call with
  | .call fn lparen args ellipsis =>
    match args with
    | [arg] =>
      if ellipsis then (none, [])
      else
        match pkg.types fn with
        | none => (none, ["Missing type for function"])
        | some ft =>
          if !ft.isType then (none, [])
          else
            let p :=
              match pkg.types arg with
              | none => ((none : Option GoType), ["Missing type for argument"])
              | some atv => (atv.type, [])
            if isUntypedValue arg then (none, p.2)
            else if !identical ft.type p.1 then (none, p.2)
            else (some lparen, p.2)
    | _ => (none, [])
  | _ => (none, [])

/-! ## Claim-side and spec-side classifier variants -/

/-- The classifier exactly as claim C5 enumerates it: shift /
comparison / arithmetic binary rules, literals, parentheses — and
*everything else* typed.  (Second definition for comparison with the
source's `isUntypedValue`; it follows the claim's words, not the
code.) -/
def claimUntypedValue : Expr → Bool
  | .binary op x y =>
    if isShiftOp op then claimUntypedValue x
    else if isCmpOp op then true
    else if isArithOp op then claimUntypedValue x && claimUntypedValue y
    else false
  | .lit _ => true
  | .paren x => claimUntypedValue x
  | _ => false

/-- The full §4.2 rule list of the spec, written from the spec's
words (second definition for the refinement comparison): binary
shift/comparison/arithmetic rules; unary `+ - ! ^` inherits; literal
always untyped; parenthesized inherits; selector inherits the
selected name; identifier untyped iff it resolves to the universal
nil sentinel or an untyped-kind named constant; calls to the
complex-number component builtins inherit from the relevant
argument(s) — extraction from the first, construction from the first
two; anything else typed. -/
def specUntypedValue : Expr → Bool
  | .lit _ => true
  | .binary op x y =>
    if isShiftOp op then specUntypedValue x
    else if isCmpOp op then true
    else if isArithOp op then specUntypedValue x && specUntypedValue y
    else false
  | .unary op x => if isUnaryKeepOp op then specUntypedValue x else false
  | .paren x => specUntypedValue x
  | .selector _ sel => specUntypedValue sel
  | .ident _ use => identUntyped use
  | .call _ _ [] _ => false
  | .call fn _ [a] _ =>
    match asBuiltin fn with
    | some obj =>
      if obj.name = "real" || obj.name = "imag" then specUntypedValue a
      else false
    | none => false
  | .call fn _ (a :: b :: _) _ =>
    match asBuiltin fn with
    | some obj =>
      if obj.name = "real" || obj.name = "imag" then specUntypedValue a
      else if obj.name = "complex" then specUntypedValue a && specUntypedValue b
      else false
    | none => false

/-! ## Lemmas about the merge fold -/

theorem lookupFile_update_isSome (m : FileEdits) (g f : String) (e : List Edit)
    (h : (lookupFile m f).isSome) :
    (lookupFile (updateFile m g e) f).isSome := by
  induction m with
  | nil => simp [lookupFile] at h
  | cons p rest ih =>
    obtain ⟨a, b⟩ := p
    by_cases hag : a = g
    · by_cases haf : a = f <;> simp_all [lookupFile, updateFile]
    · by_cases haf : a = f <;> simp_all [lookupFile, updateFile]

theorem lookupFile_append_isSome (m l : FileEdits) (f : String)
    (h : (lookupFile m f).isSome) :
    (lookupFile (m ++ l) f).isSome := by
  induction m with
  | nil => simp [lookupFile] at h
  | cons p rest ih =>
    obtain ⟨a, b⟩ := p
    by_cases haf : a = f <;> simp_all [lookupFile]

theorem lookupFile_append_self (m : FileEdits) (f : String) (e : List Edit) :
    (lookupFile (m ++ [(f, e)]) f).isSome := by
  induction m with
  | nil => simp [lookupFile]
  | cons p rest ih =>
    obtain ⟨a, b⟩ := p
    by_cases haf : a = f <;> simp_all [lookupFile]

theorem mergeStep1_preserves (m : FileEdits) (p : String × List Edit) (f : String)
    (h : (lookupFile m f).isSome) :
    (lookupFile (mergeStep1 m p) f).isSome := by
  unfold mergeStep1
  cases hl : lookupFile m p.1 with
  | some e0 => exact lookupFile_update_isSome m p.1 f _ h
  | none => exact lookupFile_append_isSome m [p] f h

theorem mergeStep1_adds (m : FileEdits) (p : String × List Edit) :
    (lookupFile (mergeStep1 m p) p.1).isSome := by
  unfold mergeStep1
  cases hl : lookupFile m p.1 with
  | some e0 =>
    exact lookupFile_update_isSome m p.1 p.1 _ (by simp [hl])
  | none => exact lookupFile_append_self m p.1 p.2

theorem mergeStep_preserves (cfg : FileEdits) (m : FileEdits) (f : String)
    (h : (lookupFile m f).isSome) :
    (lookupFile (mergeStep m cfg) f).isSome := by
  induction cfg generalizing m with
  | nil => exact h
  | cons p rest ih =>
    simpa [mergeStep, List.foldl_cons] using
      ih (mergeStep1 m p) (mergeStep1_preserves m p f h)

theorem mergeStep_adds (cfg : FileEdits) (m : FileEdits) (f : String)
    (h : (lookupFile cfg f).isSome) :
    (lookupFile (mergeStep m cfg) f).isSome := by
  induction cfg generalizing m with
  | nil => simp [lookupFile] at h
  | cons p rest ih =>
    obtain ⟨a, b⟩ := p
    by_cases haf : a = f
    · subst haf
      have h1 : (lookupFile (mergeStep1 m (a, b)) a).isSome := mergeStep1_adds m (a, b)
      simpa [mergeStep, List.foldl_cons] using
        mergeStep_preserves rest (mergeStep1 m (a, b)) a h1
    · simp only [lookupFile, if_neg haf] at h
      simpa [mergeStep, List.foldl_cons] using ih (mergeStep1 m (a, b)) h

theorem foldl_mergeStep_present (cfgs : List FileEdits) (m : FileEdits) (f : String)
    (h : (lookupFile m f).isSome ∨ ∃ cfg, cfg ∈ cfgs ∧ (lookupFile cfg f).isSome) :
    (lookupFile (cfgs.foldl mergeStep m) f).isSome := by
  induction cfgs generalizing m with
  | nil =>
    rcases h with h | ⟨cfg, hmem, _⟩
    · exact h
    · simp at hmem
  | cons c rest ih =>
    rcases h with h | ⟨cfg, hmem, hsome⟩
    · exact ih (mergeStep m c) (Or.inl (mergeStep_preserves c m f h))
    · rcases List.mem_cons.mp hmem with rfl | hmem'
      · exact ih (mergeStep m cfg) (Or.inl (mergeStep_adds cfg m f hsome))
      · exact ih (mergeStep m c) (Or.inr ⟨cfg, hmem', hsome⟩)

/-- Claim C1 (counterexample).  The claim says a file analyzed under
one configuration but absent under another contributes no entry to
the merged result.  On the code it does: with configuration 1
producing an edit for `a.go` and configuration 2 (which does not
analyze `a.go` at all) producing one only for `b.go`, `mergeEdits`'s
fold never touches the `a.go` entry, so the merged map still maps
`a.go` to its configuration-1 edits instead of dropping it. -/
theorem mergeEdits_absent_file_not_removed :
    lookupFile [("b.go", [⟨3, 4⟩])] "a.go" = none
    ∧ lookupFile
        (mergeEditsModel [[("a.go", [⟨1, 2⟩])], [("b.go", [⟨3, 4⟩])]])
        "a.go" = some [⟨1, 2⟩] := by
  constructor <;> rfl

/-- Claim C1 (amended): in all-configurations mode, a file analyzed
under at least one configuration keeps an entry in the merged result
even when it is absent under other configurations — absence leaves
the file's accumulated entry unchanged rather than removing it. -/
theorem mergeEdits_present_file_stays (cfgs : List FileEdits) (f : String)
    (h : ∃ cfg, cfg ∈ cfgs ∧ (lookupFile cfg f).isSome) :
    (lookupFile (mergeEditsModel cfgs) f).isSome :=
  foldl_mergeStep_present cfgs [] f (Or.inr h)

/-- Witness for `mergeEdits_present_file_stays` at a concrete input. -/
theorem mergeEdits_present_file_stays_witness :
    (lookupFile
      (mergeEditsModel [[("a.go", [⟨1, 2⟩])], [("b.go", [⟨3, 4⟩])]])
      "a.go").isSome :=
  mergeEdits_present_file_stays [[("a.go", [⟨1, 2⟩])], [("b.go", [⟨3, 4⟩])]]
    "a.go" ⟨[("a.go", [⟨1, 2⟩])], by simp, by decide⟩

/-! ## The parenthesization oracle's polarity (claim C2) -/

/-- Parent for the C2 counterexample: `f1 + float64(f2*f3)`. -/
def c2Parent : Expr :=
  .binary .add (.ident "f1" none)
    (.call (.ident "float64" none) 12 [.binary .mul (.ident "f2" none) (.ident "f3" none)] false)

/-- The conversion call `float64(f2*f3)` inside `c2Parent`. -/
def c2Conv : Expr :=
  .call (.ident "float64" none) 12 [.binary .mul (.ident "f2" none) (.ident "f3" none)] false

/-- The conversion's bare argument `f2*f3`. -/
def c2Arg : Expr := .binary .mul (.ident "f2" none) (.ident "f3" none)

/-- Claim C2 (counterexample).  The claim says `keepParen` reports
"parentheses required" iff the two speculative renderings differ
textually.  The code returns the opposite polarity: it keeps the
parentheses iff the renderings are the *same*.  For the parent
`f1 + float64(f2*f3)`, substituting the bare argument prints
`f1 + f2 * f3` and the parenthesized argument prints
`f1 + (f2 * f3)` — the renderings differ — yet `keepParen` answers
`false` (parentheses not required), contradicting the claimed iff. -/
theorem keepParen_differ_but_not_required :
    replaceExprField c2Parent c2Conv c2Arg
        = some (.binary .add (.ident "f1" none) c2Arg)
    ∧ replaceExprField c2Parent c2Conv (.paren c2Arg)
        = some (.binary .add (.ident "f1" none) (.paren c2Arg))
    ∧ render (.binary .add (.ident "f1" none) c2Arg)
        ≠ render (.binary .add (.ident "f1" none) (.paren c2Arg))
    ∧ keepParen c2Parent c2Conv c2Arg = some false := by
  refine ⟨rfl, rfl, by decide, rfl⟩

/-- Claim C2 (amended): whenever the conversion call `b` occurs in an
expression-valued field of parent `a` (so both speculative
substitutions succeed), `keepParen` reports that parentheses are
required iff rendering the parent with the bare argument and with the
parenthesized argument produce textually *identical* output. -/
theorem keepParen_true_iff_renders_equal (a b c a1 a2 : Expr)
    (h1 : replaceExprField a b c = some a1)
    (h2 : replaceExprField a b (.paren c) = some a2) :
    keepParen a b c = some true ↔ render a1 = render a2 := by
  unfold keepParen
  rw [h1, h2]
  simp

/-- Witness for `keepParen_true_iff_renders_equal`: the parent
`float64(f2+f3) * f3`, where go/printer itself must parenthesize the
substituted sum, renders identically both ways and the oracle keeps
the parentheses. -/
theorem keepParen_true_iff_renders_equal_witness :
    keepParen
        (.binary .mul
          (.call (.ident "float64" none) 4
            [.binary .add (.ident "f2" none) (.ident "f3" none)] false)
          (.ident "f3" none))
        (.call (.ident "float64" none) 4
          [.binary .add (.ident "f2" none) (.ident "f3" none)] false)
        (.binary .add (.ident "f2" none) (.ident "f3" none))
      = some true
    ↔ render (.binary .mul
          (.binary .add (.ident "f2" none) (.ident "f3" none)) (.ident "f3" none))
        = render (.binary .mul
          (.paren (.binary .add (.ident "f2" none) (.ident "f3" none)))
          (.ident "f3" none)) :=
  keepParen_true_iff_renders_equal _ _ _ _ _ rfl rfl

/-! ## Exit status (claim C3) -/

/-- Claim C3 (the code diverges from its own tests).  The claim — and
the repository's `TestBinary`, which fails unless the binary "quits
with an error code" on its testdata — require a non-zero exit status
whenever a redundant conversion is found.  But `main` simply returns
after the report loop (and after the apply loop), and no path calls
`os.Exit` based on the findings, so a run that finds a conversion
still exits 0: here the edit map records a finding for `a.go`, yet
the exit status is 0 in report mode and in apply mode alike. -/
theorem mainExit_zero_despite_findings :
    lookupFile [("a.go", [⟨1, 2⟩])] "a.go" = some [⟨1, 2⟩]
    ∧ mainExitModel false [("a.go", [⟨1, 2⟩])] = 0
    ∧ mainExitModel true [("a.go", [⟨1, 2⟩])] = 0 :=
  ⟨rfl, rfl, rfl⟩

/-! ## The untyped-value exception (claim C4) -/

/-- The conversion type `int64` as it appears as a callee. -/
def int64Callee : Expr := .ident "int64" none

/-- Example `const x = int64(0)`: the conversion call with an untyped literal
argument. -/
def constCall : Expr := .call int64Callee 17 [.lit "0"] false

/-- Example `var v int64; _ = int64(v)`: the conversion call whose argument
is the typed variable `v`. -/
def varCall : Expr :=
  .call int64Callee 31 [.ident "v" (some ⟨false, "v", false, false⟩)] false

/-- Type table for the `const x = int64(0)` file: the callee is the
type `int64`; the literal argument has (converted) type `int64` and a
constant value. -/
def constPkg : PkgInfo :=
  ⟨fun e =>
    if beqExpr e int64Callee then some ⟨true, some (.basic "int64"), none⟩
    else if beqExpr e (.lit "0") then some ⟨false, some (.basic "int64"), some "0"⟩
    else none⟩

/-- Type table for the `var v int64; _ = int64(v)` file: the callee
is the type `int64`; `v` has type `int64` and no constant value. -/
def varPkg : PkgInfo :=
  ⟨fun e =>
    if beqExpr e int64Callee then some ⟨true, some (.basic "int64"), none⟩
    else if beqExpr e (.ident "v" (some ⟨false, "v", false, false⟩)) then
      some ⟨false, some (.basic "int64"), none⟩
    else none⟩

/-- Claim C4: a conversion whose argument is classified untyped is
never flagged — for every package, callee, and single-argument call,
`unconvert` emits no edit when `isUntypedValue` holds of the
argument; concretely, the conversion in `const x = int64(0)` is not
flagged while the one in `var v int64; _ = int64(v)` is. -/
theorem unconvert_untyped_exception :
    (∀ (pkg : PkgInfo) (fn : Expr) (lp : Nat) (a : Expr),
      isUntypedValue a = true → (unconvert pkg (.call fn lp [a] false)).fst = none)
    ∧ (unconvert constPkg constCall).fst = none
    ∧ (unconvert varPkg varCall).fst = some 31 := by
  refine ⟨fun pkg fn lp a h => ?_, rfl, rfl⟩
  cases hft : pkg.types fn with
  | none => simp [unconvert, hft]
  | some ft =>
    by_cases hty : ft.isType
    · simp [unconvert, hft, hty, h]
    · simp [unconvert, hft, hty]

/-- Witness for the quantified part of `unconvert_untyped_exception`:
applying it to the `const x = int64(0)` instance. -/
theorem unconvert_untyped_exception_witness :
    (unconvert constPkg (.call int64Callee 17 [.lit "0"] false)).fst = none :=
  unconvert_untyped_exception.1 constPkg int64Callee 17 (.lit "0") rfl

/-! ## The untyped-value classifier rules (claim C5) -/

/-- Claim C5 (counterexample).  The claim's rule list covers only
binary expressions, literals, and parentheses, and asserts every
other expression form is classified typed (`false`).  The code also
propagates untypedness through unary `+ - ! ^` (and selectors,
identifiers, and complex-builtin calls): the unary expression `-1` is
not covered by the claim's listed rules — the claim-side classifier
answers `false` — yet `isUntypedValue` classifies it untyped. -/
theorem isUntypedValue_unary_breaks_catchall :
    claimUntypedValue (.unary .sub (.lit "1")) = false
    ∧ isUntypedValue (.unary .sub (.lit "1")) = true :=
  ⟨rfl, rfl⟩

/-- Claim C5 (amended): `isUntypedValue` is the pure structural
recursion whose rules are the spec's full §4.2 list — binary
shift/comparison/arithmetic, unary `+ - ! ^`, literals, parentheses,
selectors, identifier resolution, and the complex-number builtins —
with every form not covered by that list classified typed:
it agrees with `specUntypedValue` on every expression. -/
theorem isUntypedValue_eq_spec : (n : Expr) → isUntypedValue n = specUntypedValue n
  | .binary op x y => by
    simp only [isUntypedValue, specUntypedValue,
      isUntypedValue_eq_spec x, isUntypedValue_eq_spec y]
  | .unary op x => by
    simp only [isUntypedValue, specUntypedValue, isUntypedValue_eq_spec x]
  | .lit _ => rfl
  | .paren x => by
    simp only [isUntypedValue, specUntypedValue]
    exact isUntypedValue_eq_spec x
  | .selector x s => by
    simp only [isUntypedValue, specUntypedValue]
    exact isUntypedValue_eq_spec s
  | .ident _ _ => rfl
  | .call fn lp [] ell => rfl
  | .call fn lp [a] ell => by
    cases hb : asBuiltin fn with
    | none => simp [isUntypedValue, specUntypedValue, hb]
    | some obj =>
      simp [isUntypedValue, specUntypedValue, hb, isUntypedValue_eq_spec a]
  | .call fn lp (a :: b :: rest) ell => by
    cases hb : asBuiltin fn with
    | none => simp [isUntypedValue, specUntypedValue, hb]
    | some obj =>
      simp [isUntypedValue, specUntypedValue, hb,
        isUntypedValue_eq_spec a, isUntypedValue_eq_spec b]


/-! ## Overlap validation of the applier (claim C6) -/

/-- Some adjacent pair of the list overlaps: position `k+1` starts
before position `k` ends.  This is exactly what the validation loop
of `apply` scans for. -/
def hasAdjacentOverlap (l : List Edit) : Prop :=
  ∃ k, ∃ h : k + 1 < l.length,
    (l.get ⟨k + 1, h⟩).Pos < (l.get ⟨k, Nat.lt_of_succ_lt h⟩).End

/-- Some later entry of the list starts strictly before some earlier
entry ends (the claim's notion of overlap, over arbitrary index
pairs). -/
def hasPairOverlap (l : List Edit) : Prop :=
  ∃ i j : Fin l.length, i < j ∧ (l.get j).Pos < (l.get i).End

theorem overlapFatal_iff_adjacent :
    (l : List Edit) → (overlapFatal l = true ↔ hasAdjacentOverlap l)
  | [] => by simp [overlapFatal, hasAdjacentOverlap]
  | [a] => by simp [overlapFatal, hasAdjacentOverlap]
  | a :: b :: rest => by
    have ih := overlapFatal_iff_adjacent (b :: rest)
    simp only [overlapFatal, Bool.or_eq_true, decide_eq_true_eq, gt_iff_lt, ih,
      hasAdjacentOverlap]
    constructor
    · rintro (h | ⟨k, hk, hlt⟩)
      · exact ⟨0, by simp, by simpa using h⟩
      · refine ⟨k + 1, by simpa using Nat.succ_lt_succ hk, ?_⟩
        simpa using hlt
    · rintro ⟨k, hk, hlt⟩
      cases k with
      | zero => exact Or.inl (by simpa using hlt)
      | succ k2 =>
        exact Or.inr ⟨k2, by simpa using Nat.lt_of_succ_lt_succ hk, by simpa using hlt⟩

theorem adjacent_overlap_pair {l : List Edit} (h : hasAdjacentOverlap l) :
    hasPairOverlap l := by
  obtain ⟨k, hk, hlt⟩ := h
  exact ⟨⟨k, Nat.lt_of_succ_lt hk⟩, ⟨k + 1, hk⟩, by simp [Fin.lt_def], hlt⟩

theorem pair_overlap_adjacent {l : List Edit} (hs : l.Pairwise editLE)
    (h : hasPairOverlap l) : hasAdjacentOverlap l := by
  obtain ⟨i, j, hij, hlt⟩ := h
  have hij2 : (i : Nat) < (j : Nat) := hij
  have hi1 : (i : Nat) + 1 < l.length := Nat.lt_of_le_of_lt (Nat.succ_le_of_lt hij2) j.isLt
  refine ⟨(i : Nat), hi1, ?_⟩
  have hfin : (⟨(i : Nat), Nat.lt_of_succ_lt hi1⟩ : Fin l.length) = i := Fin.ext rfl
  rw [hfin]
  have hmono : (l.get ⟨(i : Nat) + 1, hi1⟩).Pos ≤ (l.get j).Pos := by
    rcases Nat.eq_or_lt_of_le (Nat.succ_le_of_lt hij2) with heq | hlt2
    · have hj : (⟨(i : Nat) + 1, hi1⟩ : Fin l.length) = j := Fin.ext heq
      rw [hj]
    · exact List.pairwise_iff_get.mp hs ⟨(i : Nat) + 1, hi1⟩ j hlt2
  exact Nat.lt_of_le_of_lt hmono hlt

/-- Claim C6: `apply` first sorts the edits into nondecreasing start
offsets (a permutation of the input), aborts fatally exactly when, in
the sorted sequence, some later edit starts strictly before an
earlier edit ends — and otherwise (in particular for touching edits,
whose adjacent `End = Pos` never trips the strict comparison)
proceeds to splice and write. -/
theorem apply_sorted_fatal_iff_overlap (fmtF : List Nat → List Nat)
    (buf : List Nat) (edits : List Edit) :
    (List.Sorted editLE (sortEdits edits) ∧ (sortEdits edits).Perm edits)
    ∧ (applyModel fmtF buf edits = .fatal ↔ hasPairOverlap (sortEdits edits))
    ∧ (applyModel fmtF buf edits ≠ .fatal → edits ≠ [] →
        applyModel fmtF buf edits = .write (fmtF (spliceRev buf (sortEdits edits)))) := by
  have hsorted : List.Sorted editLE (sortEdits edits) :=
    List.sorted_insertionSort editLE edits
  have hperm : (sortEdits edits).Perm edits := List.perm_insertionSort editLE edits
  refine ⟨⟨hsorted, hperm⟩, ⟨?_, ?_⟩, ?_⟩
  · intro h
    by_cases hemp : edits.isEmpty
    · exfalso
      simp [applyModel, hemp] at h
    · cases hov : overlapFatal (sortEdits edits) with
      | false =>
        exfalso
        simp [applyModel, hemp, hov] at h
      | true =>
        exact adjacent_overlap_pair ((overlapFatal_iff_adjacent _).mp hov)
  · intro hp
    have hadj := pair_overlap_adjacent hsorted hp
    have hov := (overlapFatal_iff_adjacent _).mpr hadj
    have hemp : edits.isEmpty = false := by
      cases edits with
      | nil =>
        exfalso
        obtain ⟨k, hk, _⟩ := hadj
        have hlen : (sortEdits ([] : List Edit)).length = 0 := rfl
        rw [hlen] at hk
        omega
      | cons a l => rfl
    simp [applyModel, hemp, hov]
  · intro hnf hne
    have hemp : edits.isEmpty = false := by
      cases edits with
      | nil => exact absurd rfl hne
      | cons a l => rfl
    cases hov : overlapFatal (sortEdits edits) with
    | true =>
      exact absurd (by simp [applyModel, hemp, hov]) hnf
    | false =>
      simp [applyModel, hemp, hov]

/-- Witness for `apply_sorted_fatal_iff_overlap`: touching edits
`[3,5)` and `[1,3)` (given unsorted) are accepted and applied. -/
theorem apply_sorted_fatal_iff_overlap_witness :
    applyModel (fun b => b) [0, 1, 2, 3, 4, 5] [⟨3, 5⟩, ⟨1, 3⟩]
      = .write ((fun b => b)
          (spliceRev [0, 1, 2, 3, 4, 5] (sortEdits [⟨3, 5⟩, ⟨1, 3⟩]))) :=
  (apply_sorted_fatal_iff_overlap (fun b => b) [0, 1, 2, 3, 4, 5]
      [⟨3, 5⟩, ⟨1, 3⟩]).2.2 (by decide) (by decide)


/-! ## Equivalence of the two splicing strategies (claim C7) -/

theorem editsWf_mono (es : List Edit) (lo lo2 len : Nat) (h : lo2 ≤ lo)
    (hw : editsWf lo len es = true) : editsWf lo2 len es = true := by
  cases es with
  | nil => rfl
  | cons e es =>
    simp only [editsWf, Bool.and_eq_true, decide_eq_true_eq] at hw ⊢
    exact ⟨⟨⟨Nat.le_trans h hw.1.1.1, hw.1.1.2⟩, hw.1.2⟩, hw.2⟩

theorem editsWf_shift (es : List Edit) (lo len k : Nat) (hk : k ≤ lo)
    (hw : editsWf lo len es = true) :
    editsWf (lo - k) (len - k) (es.map (shiftE k)) = true := by
  induction es generalizing lo with
  | nil => rfl
  | cons e es ih =>
    simp only [editsWf, Bool.and_eq_true, decide_eq_true_eq] at hw
    obtain ⟨⟨⟨h1, h2⟩, h3⟩, h4⟩ := hw
    have hkEnd : k ≤ e.End := Nat.le_trans hk (Nat.le_trans h1 h2)
    simp only [List.map_cons, editsWf, shiftE, Bool.and_eq_true, decide_eq_true_eq]
    exact ⟨⟨⟨Nat.sub_le_sub_right h1 k, Nat.sub_le_sub_right h2 k⟩,
      Nat.sub_le_sub_right h3 k⟩, ih e.End hkEnd h4⟩

theorem spliceRev_split {α : Type} (es : List Edit) (buf : List α) (k : Nat)
    (hk : k ≤ buf.length) (hw : editsWf k buf.length es = true) :
    spliceRev buf es = buf.take k ++ spliceRev (buf.drop k) (es.map (shiftE k)) := by
  induction es with
  | nil => simp [spliceRev]
  | cons e es ih =>
    simp only [editsWf, Bool.and_eq_true, decide_eq_true_eq] at hw
    obtain ⟨⟨⟨h1, h2⟩, h3⟩, h4⟩ := hw
    have hes : editsWf k buf.length es = true :=
      editsWf_mono es e.End k buf.length (Nat.le_trans h1 h2) h4
    have hstep : spliceRev buf (e :: es) = deleteRange (spliceRev buf es) e := rfl
    have hstep2 :
        spliceRev (buf.drop k) ((e :: es).map (shiftE k))
          = deleteRange (spliceRev (buf.drop k) (es.map (shiftE k))) (shiftE k e) := rfl
    rw [hstep, ih hes, hstep2]
    unfold deleteRange shiftE
    have hlk : (buf.take k).length = k := by
      rw [List.length_take]
      omega
    rw [List.take_append_eq_append_take, List.drop_append_eq_append_drop, hlk]
    rw [List.take_take]
    have hminp : min e.Pos k = k := by omega
    rw [hminp]
    rw [@List.drop_eq_nil_of_le _ (buf.take k) e.End
      (by rw [hlk]; exact Nat.le_trans h1 h2)]
    simp [List.append_assoc]

theorem forwardSegs_eq {α : Type} (es : List Edit) (buf : List α) (prev : Nat)
    (hp : prev ≤ buf.length) (hw : editsWf prev buf.length es = true) :
    forwardSegs buf prev es = spliceRev (buf.drop prev) (es.map (shiftE prev)) := by
  induction es generalizing prev with
  | nil => simp [forwardSegs, spliceRev]
  | cons e es ih =>
    simp only [editsWf, Bool.and_eq_true, decide_eq_true_eq] at hw
    obtain ⟨⟨⟨h1, h2⟩, h3⟩, h4⟩ := hw
    have hpe : prev ≤ e.End := Nat.le_trans h1 h2
    rw [forwardSegs, ih e.End h3 h4]
    have hstep : spliceRev (buf.drop prev) ((e :: es).map (shiftE prev))
        = deleteRange (spliceRev (buf.drop prev) (es.map (shiftE prev)))
            (shiftE prev e) := rfl
    rw [hstep]
    have hwshift : editsWf (e.End - prev) (buf.length - prev)
        (es.map (shiftE prev)) = true := editsWf_shift es e.End buf.length prev hpe h4
    have hlen : (buf.drop prev).length = buf.length - prev := List.length_drop prev buf
    have hsplit := spliceRev_split (es.map (shiftE prev)) (buf.drop prev) (e.End - prev)
      (by rw [hlen]; exact Nat.sub_le_sub_right h3 prev) (by rw [hlen]; exact hwshift)
    rw [hsplit]
    have hdd : (buf.drop prev).drop (e.End - prev) = buf.drop e.End := by
      rw [List.drop_drop]
      congr 1
      omega
    have hmap : (es.map (shiftE prev)).map (shiftE (e.End - prev))
        = es.map (shiftE e.End) := by
      rw [List.map_map]
      apply List.map_congr_left
      intro x _
      simp only [Function.comp_apply, shiftE, Edit.mk.injEq]
      constructor <;> omega
    rw [hdd, hmap]
    simp only [deleteRange, shiftE]
    rw [List.take_append_eq_append_take, List.drop_append_eq_append_drop]
    have hT : ((buf.drop prev).take (e.End - prev)).length = e.End - prev := by
      rw [List.length_take, List.length_drop]
      omega
    rw [hT, List.take_take]
    have hmin : min (e.Pos - prev) (e.End - prev) = e.Pos - prev := by omega
    rw [hmin]
    have h0 : e.Pos - prev - (e.End - prev) = 0 := by omega
    rw [h0, List.take_zero, Nat.sub_self, List.drop_zero]
    rw [List.drop_eq_nil_of_le (Nat.le_of_eq hT)]
    simp

/-- Claim C7: on every buffer, for every sorted, pairwise
non-overlapping (touching allowed), in-bounds list of half-open
deletion ranges, the reverse-order in-place splicing strategy of
unconvert.go's `apply` and the forward-copy strategy of the
historical `apply` produce the same output — the input with every
deleted range skipped (which is what `forwardCopy` constructs segment
by segment). -/
theorem spliceRev_eq_forwardCopy {α : Type} (buf : List α) (es : List Edit)
    (hw : editsWf 0 buf.length es = true) :
    spliceRev buf es = forwardCopy buf es := by
  cases es with
  | nil => rfl
  | cons e es =>
    simp only [editsWf, Bool.and_eq_true, decide_eq_true_eq] at hw
    obtain ⟨⟨⟨_, h2⟩, h3⟩, h4⟩ := hw
    have hstep : spliceRev buf (e :: es) = deleteRange (spliceRev buf es) e := rfl
    rw [hstep, spliceRev_split es buf e.End h3 h4]
    simp only [deleteRange]
    rw [List.take_append_eq_append_take, List.drop_append_eq_append_drop]
    have hT : (buf.take e.End).length = e.End := by
      rw [List.length_take]
      omega
    rw [hT, List.take_take]
    have hmin : min e.Pos e.End = e.Pos := by omega
    rw [hmin]
    have h0 : e.Pos - e.End = 0 := by omega
    rw [h0, List.take_zero, Nat.sub_self, List.drop_zero]
    rw [List.drop_eq_nil_of_le (Nat.le_of_eq hT)]
    rw [forwardCopy, forwardSegs_eq es buf e.End h3 h4]
    simp

/-- Witness for `spliceRev_eq_forwardCopy` on a concrete buffer with
touching ranges. -/
theorem spliceRev_eq_forwardCopy_witness :
    spliceRev [0, 1, 2, 3, 4, 5, 6, 7, 8, 9] [⟨1, 3⟩, ⟨3, 5⟩, ⟨7, 9⟩]
      = forwardCopy [0, 1, 2, 3, 4, 5, 6, 7, 8, 9] [⟨1, 3⟩, ⟨3, 5⟩, ⟨7, 9⟩] :=
  spliceRev_eq_forwardCopy [0, 1, 2, 3, 4, 5, 6, 7, 8, 9]
    [⟨1, 3⟩, ⟨3, 5⟩, ⟨7, 9⟩] (by decide)


/-! ## Order-insensitivity of the intersection fold (claim C8) -/

theorem mem_intersect (e : Edit) (u v : List Edit) :
    e ∈ intersect u v ↔ e ∈ u ∧ e ∈ v := by
  unfold intersect
  split_ifs with h
  · rcases Bool.or_eq_true_iff.mp h with h1 | h1
    · have : u = [] := by
        cases u with
        | nil => rfl
        | cons a l => simp [List.isEmpty] at h1
      subst this
      simp
    · have : v = [] := by
        cases v with
        | nil => rfl
        | cons a l => simp [List.isEmpty] at h1
      subst this
      simp
  · rw [List.mem_filter]
    constructor
    · rintro ⟨hv, hc⟩
      exact ⟨List.elem_iff.mp hc, hv⟩
    · rintro ⟨hu, hv⟩
      exact ⟨hv, List.elem_iff.mpr hu⟩

theorem intersect3_mem (U V W : List Edit) (e : Edit) :
    e ∈ intersect (intersect U V) W ↔ e ∈ U ∧ e ∈ V ∧ e ∈ W := by
  rw [mem_intersect, mem_intersect]
  tauto

theorem perm3_transport (P Q R U V W : List Edit)
    (hp : List.Perm [P, Q, R] [U, V, W]) (e : Edit)
    (h : e ∈ P ∧ e ∈ Q ∧ e ∈ R) : e ∈ U ∧ e ∈ V ∧ e ∈ W := by
  have hsub := hp.symm.subset
  have hU : U ∈ [P, Q, R] := hsub (by simp)
  have hV : V ∈ [P, Q, R] := hsub (by simp)
  have hW : W ∈ [P, Q, R] := hsub (by simp)
  obtain ⟨h1, h2, h3⟩ := h
  refine ⟨?_, ?_, ?_⟩
  · rcases (by simpa using hU : U = P ∨ U = Q ∨ U = R) with rfl | rfl | rfl <;> assumption
  · rcases (by simpa using hV : V = P ∨ V = Q ∨ V = R) with rfl | rfl | rfl <;> assumption
  · rcases (by simpa using hW : W = P ∨ W = Q ∨ W = R) with rfl | rfl | rfl <;> assumption

/-- Claim C8: folding `intersect` over three edit sets is insensitive
to the processing order — any permutation of `{A,B,C}` yields the
same merged set (same members), and that set equals the sequential
left fold of `A`, then `B`, then `C`; likewise the fold is
associative (`A ∩ (B ∩ C)` has the same members as `(A ∩ B) ∩ C`). -/
theorem intersect_fold_order_insensitive (A B C X Y Z : List Edit)
    (hperm : List.Perm [X, Y, Z] [A, B, C]) :
    (∀ e, e ∈ intersect (intersect X Y) Z ↔ e ∈ intersect (intersect A B) C)
    ∧ (∀ e, e ∈ intersect A (intersect B C) ↔ e ∈ intersect (intersect A B) C) := by
  constructor
  · intro e
    rw [intersect3_mem, intersect3_mem]
    exact ⟨perm3_transport X Y Z A B C hperm e,
      perm3_transport A B C X Y Z hperm.symm e⟩
  · intro e
    rw [intersect3_mem, mem_intersect, mem_intersect]

/-- Witness for `intersect_fold_order_insensitive` on concrete edit
sets processed in rotated order. -/
theorem intersect_fold_order_insensitive_witness :
    (∀ e, e ∈ intersect (intersect [⟨5, 6⟩] [⟨1, 2⟩, ⟨5, 6⟩]) [⟨5, 6⟩, ⟨7, 8⟩]
      ↔ e ∈ intersect (intersect [⟨1, 2⟩, ⟨5, 6⟩] [⟨5, 6⟩, ⟨7, 8⟩]) [⟨5, 6⟩])
    ∧ (∀ e, e ∈ intersect [⟨1, 2⟩, ⟨5, 6⟩] (intersect [⟨5, 6⟩, ⟨7, 8⟩] [⟨5, 6⟩])
      ↔ e ∈ intersect (intersect [⟨1, 2⟩, ⟨5, 6⟩] [⟨5, 6⟩, ⟨7, 8⟩]) [⟨5, 6⟩]) :=
  intersect_fold_order_insensitive [⟨1, 2⟩, ⟨5, 6⟩] [⟨5, 6⟩, ⟨7, 8⟩] [⟨5, 6⟩]
    [⟨5, 6⟩] [⟨1, 2⟩, ⟨5, 6⟩] [⟨5, 6⟩, ⟨7, 8⟩] (by decide)

/-! ## Missing type information (claim C9) -/

/-- Type table for the C9 counterexample: the callee `f` resolves to
a value (not a type); the argument has no entry at all. -/
def c9Pkg : PkgInfo :=
  ⟨fun e =>
    if beqExpr e (.ident "f" none) then some ⟨false, some (.basic "funcT"), none⟩
    else none⟩

/-- Claim C9 (counterexample).  The claim says a missing type-table
entry — for the callee or for the single argument — always produces a
warning.  But when the callee resolves to a non-type, `unconvert`
returns at the `!ft.IsType()` check *before* it ever looks the
argument up, so a call whose argument entry is missing produces no
warning at all (and no edit). -/
theorem unconvert_missing_arg_no_warning :
    c9Pkg.types (.ident "x" none) = none
    ∧ unconvert c9Pkg (.call (.ident "f" none) 3 [.ident "x" none] false) = (none, []) :=
  ⟨rfl, rfl⟩

/-- Claim C9 (amended): a node with a missing type-table entry is
never flagged and never crashes the detector; the warning is printed
when the missing entry is consulted — always for a missing callee
entry, and for a missing argument entry whenever the callee resolved
to a type; when the callee resolved to a non-type value, the node is
dismissed with no warning. -/
theorem unconvert_missing_type_skips (pkg : PkgInfo) (fn : Expr) (lp : Nat) (a : Expr) :
    (pkg.types fn = none →
      unconvert pkg (.call fn lp [a] false) = (none, ["Missing type for function"]))
    ∧ (∀ ftv, pkg.types fn = some ftv → ftv.isType = true → ftv.type.isSome = true →
        pkg.types a = none →
        (unconvert pkg (.call fn lp [a] false)).fst = none
        ∧ (unconvert pkg (.call fn lp [a] false)).snd = ["Missing type for argument"])
    ∧ (∀ ftv, pkg.types fn = some ftv → ftv.isType = false → pkg.types a = none →
        unconvert pkg (.call fn lp [a] false) = (none, [])) := by
  refine ⟨?_, ?_, ?_⟩
  · intro h
    simp [unconvert, h]
  · intro ftv hft hty hsome harg
    obtain ⟨t, ht⟩ := Option.isSome_iff_exists.mp hsome
    by_cases hu : isUntypedValue a
    · constructor <;> simp [unconvert, hft, hty, harg, hu]
    · have hid : identical ftv.type none = false := by
        rw [ht]
        rfl
      constructor <;> simp [unconvert, hft, hty, harg, hu, hid]
  · intro ftv hft hty harg
    simp [unconvert, hft, hty]

/-- Witness for `unconvert_missing_type_skips`: the all-empty type
table warns about the callee and emits nothing. -/
theorem unconvert_missing_type_skips_witness :
    unconvert ⟨fun _ => none⟩ (.call (.ident "f" none) 3 [.ident "x" none] false)
      = (none, ["Missing type for function"]) :=
  (unconvert_missing_type_skips ⟨fun _ => none⟩ (.ident "f" none) 3
    (.ident "x" none)).1 rfl

/-! ## Empty edit list is a no-op (claim C10) -/

/-- Claim C10: `apply` on an empty edit list returns before reading,
reformatting, or writing — the outcome is `noop` for every formatter
and every current file content, and the file's bytes are unchanged
even when the formatter would have rewritten them. -/
theorem apply_empty_edits_noop (fmtF : List Nat → List Nat) (buf : List Nat) :
    applyModel fmtF buf [] = .noop ∧ fileAfter (applyModel fmtF buf []) buf = buf :=
  ⟨rfl, rfl⟩


end UnconvertProof
